import Mathlib

/-!
Shallow embedding of the automatic-brightness decision engine of
ddc-automatic-brightness (C/GTK sources) and proofs about it.

Conventions used throughout:
* C `int` values are modelled as `ℤ`; machine overflow is irrelevant here
  because every quantity involved is bounded by small constants
  (brightness 0..100, minutes of day 0..1439, lux readings).
* C `double` values are modelled as exact rationals `ℚ`.  Every double in
  the translated code paths either holds an integer-derived value or is the
  result of one division/multiplication of such values, and the claims are
  stated in terms of exact arithmetic on those values.
* A C cast `(int)x` truncates toward zero; it is modelled by `truncQ`.
* Hardware / filesystem I-O results are passed in as explicit parameters
  (for example the `hwOk` flag standing for the exit status of the
  `ddccontrol` write subprocess).
-/

namespace DdcBrightness

/-- Truncation toward zero of a rational, the semantics of C's `(int)` cast
applied to a `double`. -/
def truncQ (q : ℚ) : ℤ := if q < 0 then ⌈q⌉ else ⌊q⌋

theorem truncQ_intCast (n : ℤ) : truncQ (n : ℚ) = n := by
  unfold truncQ
  split <;> simp

theorem truncQ_of_nonneg {q : ℚ} (h : 0 ≤ q) : truncQ q = ⌊q⌋ := by
  unfold truncQ
  rw [if_neg (not_lt.mpr h)]

/-! ## Schedule source (scheduler.c) -/

/-- One schedule entry, `ScheduleEntry` of scheduler.h: an `HH:MM` time of
day plus a brightness percentage. -/
structure ScheduleEntry where
  hour : ℤ
  minute : ℤ
  brightness : ℤ
deriving DecidableEq

/-- Minute-of-day of an entry, `entry->hour * 60 + entry->minute` as
computed by `scheduler_get_current_brightness`. -/
def schedule_time (e : ScheduleEntry) : ℤ := e.hour * 60 + e.minute

/-- The interpolation step of `scheduler_get_current_brightness`:
`(int)(prev->brightness + ratio * (entry->brightness - prev->brightness))`
with `ratio = (now - prev_minutes) / (next_minutes - prev_minutes)`. -/
def sched_interp (prev e : ScheduleEntry) (now : ℤ) : ℤ :=
  truncQ ((prev.brightness : ℚ) +
    ((now : ℚ) - (schedule_time prev : ℚ)) /
      ((schedule_time e : ℚ) - (schedule_time prev : ℚ)) *
      ((e.brightness : ℚ) - (prev.brightness : ℚ)))

/-- The scan loop of `scheduler_get_current_brightness`: walk the sorted
entry list keeping the previous entry, and at the first entry whose time is
`≥ now` interpolate between it and the previous one.  Returns `none` when
the loop runs past the end (`now` is after the last entry). -/
def sched_scan (prev : ScheduleEntry) : List ScheduleEntry → ℤ → Option ℤ
  | [], _ => none
  | e :: rest, now =>
      if now ≤ schedule_time e then some (sched_interp prev e now)
      else sched_scan e rest now

/-- Brightness of the last entry of the list (`g_list_last`); `-1` for an
empty list, matching the function's no-entries sentinel. -/
def sched_last_brightness : List ScheduleEntry → ℤ
  | [] => -1
  | [e] => e.brightness
  | _ :: e :: rest => sched_last_brightness (e :: rest)

/-- `scheduler_get_current_brightness` of scheduler.c, with the current
minute-of-day passed explicitly instead of read from `localtime`.
Branches in source order: no entries `→ -1`; a single entry `→` its
brightness; first entry with `now ≤` its time is the head `→` last entry's
brightness; otherwise interpolate with the previous entry; loop exhausted
`→` last entry's brightness. -/
def scheduler_get_current_brightness (entries : List ScheduleEntry) (now : ℤ) : ℤ :=
  match entries with
  | [] => -1
  | e :: rest =>
      if rest.length = 0 then e.brightness
      else if now ≤ schedule_time e then sched_last_brightness (e :: rest)
      else
        match sched_scan e rest now with
        | some b => b
        | none => sched_last_brightness (e :: rest)

/-- Entries are kept sorted by strictly increasing minute-of-day
(`scheduler_add_time` inserts with `schedule_entry_compare` and updates an
existing entry in place instead of duplicating its time). -/
def sched_sorted (l : List ScheduleEntry) : Prop :=
  l.Pairwise (fun a b => schedule_time a < schedule_time b)

instance (l : List ScheduleEntry) : Decidable (sched_sorted l) := by
  unfold sched_sorted; infer_instance

theorem sched_scan_append (now : ℤ) :
    ∀ (l₁ : List ScheduleEntry) (prev : ScheduleEntry) (rest : List ScheduleEntry),
      (∀ e ∈ l₁, schedule_time e < now) →
      sched_scan prev (l₁ ++ rest) now = sched_scan (l₁.getLastD prev) rest now := by
  intro l₁
  induction l₁ with
  | nil => intro prev rest _; rfl
  | cons x xs ih =>
      intro prev rest h
      have hx : schedule_time x < now := h x (List.mem_cons_self x xs)
      simp only [List.cons_append, sched_scan, if_neg (not_le.mpr hx), List.getLastD_cons]
      exact ih x rest fun e he => h e (List.mem_cons_of_mem x he)

theorem sched_scan_eq_none (now : ℤ) :
    ∀ (l : List ScheduleEntry) (prev : ScheduleEntry),
      (∀ e ∈ l, schedule_time e < now) → sched_scan prev l now = none := by
  intro l
  induction l with
  | nil => intro prev _; rfl
  | cons x xs ih =>
      intro prev h
      have hx : schedule_time x < now := h x (List.mem_cons_self x xs)
      simp only [sched_scan, if_neg (not_le.mpr hx)]
      exact ih x fun e he => h e (List.mem_cons_of_mem x he)

theorem sched_scan_bracket (now : ℤ) (prev p q : ScheduleEntry) (l₂ : List ScheduleEntry)
    (hp : schedule_time p < now) (hq : now ≤ schedule_time q) :
    sched_scan prev (p :: q :: l₂) now = some (sched_interp p q now) := by
  simp only [sched_scan, if_neg (not_le.mpr hp), if_pos hq]

theorem sched_last_brightness_cons (x : ScheduleEntry) (m : List ScheduleEntry)
    (h : m ≠ []) : sched_last_brightness (x :: m) = sched_last_brightness m := by
  cases m with
  | nil => exact absurd rfl h
  | cons y t => rfl

theorem sched_last_brightness_append (l : List ScheduleEntry) (e : ScheduleEntry) :
    sched_last_brightness (l ++ [e]) = e.brightness := by
  induction l with
  | nil => rfl
  | cons x xs ih =>
      rw [List.cons_append, sched_last_brightness_cons x (xs ++ [e]) (by simp)]
      exact ih

/-- Interpolation at the right endpoint: when `now` equals the later
entry's time the ratio is exactly one and the interpolated value is that
entry's brightness. -/
theorem sched_interp_right (p e : ScheduleEntry) (h : schedule_time p < schedule_time e) :
    sched_interp p e (schedule_time e) = e.brightness := by
  unfold sched_interp
  have hne : (schedule_time e : ℚ) - (schedule_time p : ℚ) ≠ 0 := by
    have : (schedule_time p : ℚ) < (schedule_time e : ℚ) := by exact_mod_cast h
    exact sub_ne_zero_of_ne (ne_of_gt this)
  have h2 : (p.brightness : ℚ) +
      ((schedule_time e : ℚ) - (schedule_time p : ℚ)) /
        ((schedule_time e : ℚ) - (schedule_time p : ℚ)) *
        ((e.brightness : ℚ) - (p.brightness : ℚ)) = ((e.brightness : ℤ) : ℚ) := by
    rw [div_self hne]; ring
  rw [h2, truncQ_intCast]

/-- The head branch of the lookup: with at least two entries and
`now ≤` the first entry's time, the last entry's brightness is returned. -/
theorem scheduler_head_wrap (e₀ : ScheduleEntry) (rest : List ScheduleEntry) (now : ℤ)
    (hrest : rest ≠ []) (hle : now ≤ schedule_time e₀) :
    scheduler_get_current_brightness (e₀ :: rest) now =
      sched_last_brightness (e₀ :: rest) := by
  have hlen : rest.length ≠ 0 := fun h => hrest (List.length_eq_zero.mp h)
  simp only [scheduler_get_current_brightness, if_neg hlen, if_pos hle]

/-- The fall-through branch: when `now` is past every entry's time, the
last entry's brightness is returned. -/
theorem scheduler_past_wrap (e₀ : ScheduleEntry) (rest : List ScheduleEntry) (now : ℤ)
    (hrest : rest ≠ []) (h₀ : schedule_time e₀ < now)
    (hall : ∀ e ∈ rest, schedule_time e < now) :
    scheduler_get_current_brightness (e₀ :: rest) now =
      sched_last_brightness (e₀ :: rest) := by
  have hlen : rest.length ≠ 0 := fun h => hrest (List.length_eq_zero.mp h)
  simp only [scheduler_get_current_brightness, if_neg hlen, if_neg (not_le.mpr h₀),
    sched_scan_eq_none now rest e₀ hall]

/-- The interpolation branch: at a bracketing consecutive pair
`(p, q)` with `time p < now ≤ time q` the lookup interpolates between the
pair. -/
theorem scheduler_bracket (l₁ : List ScheduleEntry) (p q : ScheduleEntry)
    (l₂ : List ScheduleEntry) (now : ℤ)
    (hsort : sched_sorted (l₁ ++ p :: q :: l₂))
    (hp : schedule_time p < now) (hq : now ≤ schedule_time q) :
    scheduler_get_current_brightness (l₁ ++ p :: q :: l₂) now =
      sched_interp p q now := by
  cases l₁ with
  | nil =>
      simp only [List.nil_append, scheduler_get_current_brightness]
      have hlen : (q :: l₂).length ≠ 0 := by simp
      rw [if_neg hlen, if_neg (not_le.mpr hp)]
      simp only [sched_scan, if_pos hq]
  | cons a l₁' =>
      have hsort' := hsort
      unfold sched_sorted at hsort'
      rw [List.cons_append, List.pairwise_cons] at hsort'
      obtain ⟨ha, htail⟩ := hsort'
      have hap : schedule_time a < schedule_time p :=
        ha p (by simp [List.mem_append])
      have hanow : schedule_time a < now := lt_trans hap hp
      have hallskip : ∀ e ∈ l₁', schedule_time e < now := by
        intro e he
        have : schedule_time e < schedule_time p := by
          rw [List.pairwise_append] at htail
          exact htail.2.2 e he p (by simp)
        exact lt_trans this hp
      simp only [List.cons_append, scheduler_get_current_brightness]
      have hlen : (l₁' ++ p :: q :: l₂).length ≠ 0 := by simp
      rw [if_neg hlen, if_neg (not_le.mpr hanow),
        sched_scan_append now l₁' a (p :: q :: l₂) hallskip,
        sched_scan_bracket now _ p q l₂ hp hq]

/-- C3: ScheduleSource computes its result as: 0 entries `→` sentinel -1;
exactly 1 entry `→` that entry's brightness regardless of the time; with
`≥ 2` sorted entries, `now ≤` first entry's time or `now >` last entry's
time `→` the last entry's brightness (cyclic wrap); otherwise
`b0 + (now - t0)/(t1 - t0) * (b1 - b0)` truncated to an integer, where
`(t0,b0)` and `(t1,b1)` are the bracketing entries in minutes-of-day.
The C code computes the interpolation in `double`; it is modelled here as
exact rational arithmetic followed by the `(int)` truncation. -/
theorem scheduler_source_spec (entries : List ScheduleEntry) (now : ℤ)
    (hsort : sched_sorted entries) :
    (entries = [] → scheduler_get_current_brightness entries now = -1) ∧
    (∀ e, entries = [e] → scheduler_get_current_brightness entries now = e.brightness) ∧
    (∀ e₀ rest l elast, entries = e₀ :: rest → rest ≠ [] → entries = l ++ [elast] →
      (now ≤ schedule_time e₀ ∨ schedule_time elast < now) →
      scheduler_get_current_brightness entries now = elast.brightness) ∧
    (∀ l₁ p q l₂, entries = l₁ ++ p :: q :: l₂ →
      schedule_time p < now → now ≤ schedule_time q →
      scheduler_get_current_brightness entries now =
        truncQ ((p.brightness : ℚ) +
          ((now : ℚ) - (schedule_time p : ℚ)) /
            ((schedule_time q : ℚ) - (schedule_time p : ℚ)) *
            ((q.brightness : ℚ) - (p.brightness : ℚ)))) := by
  refine ⟨?_, ?_, ?_, ?_⟩
  · intro h; subst h; rfl
  · intro e h; subst h; rfl
  · intro e₀ rest l elast h1 hrest h3 h4
    subst h1
    rcases h4 with hle | hpast
    · rw [scheduler_head_wrap e₀ rest now hrest hle, h3,
        sched_last_brightness_append]
    · cases l with
      | nil =>
          exfalso
          apply hrest
          simpa using congrArg List.tail h3
      | cons b l' =>
          rw [List.cons_append, List.cons.injEq] at h3
          obtain ⟨hb, hrest'⟩ := h3
          have h3 : e₀ :: rest = (b :: l') ++ [elast] := by
            rw [List.cons_append, hb, hrest']
          have hsort' := hsort
          unfold sched_sorted at hsort'
          rw [List.pairwise_cons] at hsort'
          obtain ⟨hhead, htail⟩ := hsort'
          have helast_mem : elast ∈ rest := by
            rw [hrest']; simp
          have h₀ : schedule_time e₀ < now :=
            lt_trans (hhead elast helast_mem) hpast
          have hall : ∀ e ∈ rest, schedule_time e < now := by
            intro e he
            rw [hrest'] at he htail
            rcases List.mem_append.mp he with hel | hel
            · rw [List.pairwise_append] at htail
              exact lt_trans (htail.2.2 e hel elast (by simp)) hpast
            · rw [List.mem_singleton.mp hel]; exact hpast
          rw [scheduler_past_wrap e₀ rest now hrest h₀ hall, h3,
            sched_last_brightness_append]
  · intro l₁ p q l₂ hsplit hp hq
    subst hsplit
    rw [scheduler_bracket l₁ p q l₂ now hsort hp hq]
    rfl

/-- C3 witness: for the schedule `(9:00,70),(13:00,90),(19:00,50)` at
`11:00` (minute 660) the computed brightness is
`70 + (660-540)/(780-540)*(90-70) = 80`. -/
theorem scheduler_source_spec_witness :
    scheduler_get_current_brightness
      [⟨9,0,70⟩, ⟨13,0,90⟩, ⟨19,0,50⟩] 660 = 80 := by
  have h := (scheduler_source_spec [⟨9,0,70⟩, ⟨13,0,90⟩, ⟨19,0,50⟩] 660
      (by decide)).2.2.2 [] ⟨9,0,70⟩ ⟨13,0,90⟩ [⟨19,0,50⟩] rfl
      (by decide) (by decide)
  rw [h]
  norm_num [truncQ, schedule_time]

/-- C2 counterexample: with schedule `(9:00,70),(13:00,90),(19:00,50)` and
the current time exactly the first entry's time (9:00, minute 540), the
lookup returns the last entry's brightness 50, not the first entry's 70:
the `current_minutes <= entry_minutes` comparison sends the boundary case
into the previous-day wrap branch. -/
theorem scheduler_entry_time_counterexample :
    scheduler_get_current_brightness
      [⟨9,0,70⟩, ⟨13,0,90⟩, ⟨19,0,50⟩] (schedule_time ⟨9,0,70⟩) = 50 ∧
    (50 : ℤ) ≠ 70 := by
  constructor
  · decide
  · decide

/-- C2 amended: at a time exactly equal to a schedule entry's time the
lookup returns that entry's brightness, except when that entry is the
first of a schedule with at least two entries, in which case the last
entry's brightness is returned (previous-day wrap); a one-entry schedule
always returns its only entry's brightness. -/
theorem scheduler_entry_time_exact (entries : List ScheduleEntry)
    (hsort : sched_sorted entries) :
    (∀ e, entries = [e] →
      scheduler_get_current_brightness entries (schedule_time e) = e.brightness) ∧
    (∀ l₁ p e l₂, entries = l₁ ++ p :: e :: l₂ →
      scheduler_get_current_brightness entries (schedule_time e) = e.brightness) ∧
    (∀ e₀ rest l elast, entries = e₀ :: rest → rest ≠ [] → entries = l ++ [elast] →
      scheduler_get_current_brightness entries (schedule_time e₀) = elast.brightness) := by
  refine ⟨?_, ?_, ?_⟩
  · intro e h; subst h; rfl
  · intro l₁ p e l₂ hsplit
    have hpe : schedule_time p < schedule_time e := by
      have h2 : (p :: e :: l₂).Pairwise (fun a b => schedule_time a < schedule_time b) := by
        have := hsort
        unfold sched_sorted at this
        rw [hsplit, List.pairwise_append] at this
        exact this.2.1
      rw [List.pairwise_cons] at h2
      exact h2.1 e (by simp)
    subst hsplit
    rw [scheduler_bracket l₁ p e l₂ (schedule_time e) hsort hpe (le_refl _),
      sched_interp_right p e hpe]
  · intro e₀ rest l elast h1 hrest h3
    subst h1
    rw [scheduler_head_wrap e₀ rest (schedule_time e₀) hrest (le_refl _), h3,
      sched_last_brightness_append]

/-- C2 witness: in the three-entry schedule the non-first entry
`(13:00,90)` is returned exactly at its own time. -/
theorem scheduler_entry_time_exact_witness :
    scheduler_get_current_brightness
      [⟨9,0,70⟩, ⟨13,0,90⟩, ⟨19,0,50⟩] (schedule_time ⟨13,0,90⟩) = 90 := by
  exact (scheduler_entry_time_exact [⟨9,0,70⟩, ⟨13,0,90⟩, ⟨19,0,50⟩]
    (by decide)).2.1 [] ⟨9,0,70⟩ ⟨13,0,90⟩ [⟨19,0,50⟩] rfl

/-! ## Light-sensor curve (light_sensor.c) -/

/-- One calibration point of the lux `→` brightness curve, the anonymous
`{ double lux; int brightness; }` struct of light_sensor.c. -/
structure CurvePoint where
  lux : ℚ
  brightness : ℤ
deriving DecidableEq

/-- The `interpolate` helper of light_sensor.c: clamp at either endpoint,
otherwise `(int)(y1 + ratio * (y2 - y1))` with
`ratio = (x - x1) / (x2 - x1)`. -/
def interpolate (x x1 x2 : ℚ) (y1 y2 : ℤ) : ℤ :=
  if x ≤ x1 then y1
  else if x2 ≤ x then y2
  else truncQ ((y1 : ℚ) + (x - x1) / (x2 - x1) * ((y2 : ℚ) - (y1 : ℚ)))

/-- The segment-search loop of `light_sensor_calculate_brightness`: walk
consecutive pairs and interpolate inside the first segment whose upper
point has `lux ≤` its lux. -/
def curve_scan (p : CurvePoint) : List CurvePoint → ℚ → Option ℤ
  | [], _ => none
  | q :: rest, lux =>
      if lux ≤ q.lux then some (interpolate lux p.lux q.lux p.brightness q.brightness)
      else curve_scan q rest lux

/-- Lux of the last curve point (`curve_points[num_curve_points - 1]`). -/
def curve_last_lux : List CurvePoint → ℚ
  | [] => 0
  | [p] => p.lux
  | _ :: p :: rest => curve_last_lux (p :: rest)

/-- Brightness of the last curve point. -/
def curve_last_brightness : List CurvePoint → ℤ
  | [] => -1
  | [p] => p.brightness
  | _ :: p :: rest => curve_last_brightness (p :: rest)

/-- `light_sensor_calculate_brightness` of light_sensor.c, with the curve
passed explicitly.  Branches in source order: negative lux or fewer than 2
points `→ -1`; at or below the first point `→` its brightness; at or past
the last point `→` its brightness; otherwise the first bracketing segment
interpolates; fall-through `→` last point's brightness. -/
def light_sensor_calculate_brightness (points : List CurvePoint) (lux : ℚ) : ℤ :=
  if lux < 0 ∨ points.length < 2 then -1
  else
    match points with
    | [] => -1
    | p :: rest =>
        if lux ≤ p.lux then p.brightness
        else if curve_last_lux (p :: rest) ≤ lux then curve_last_brightness (p :: rest)
        else
          match curve_scan p rest lux with
          | some b => b
          | none => curve_last_brightness (p :: rest)

/-- Curve points are kept sorted by strictly increasing lux (data model:
a curve is a sequence of `≥ 2` points with ascending unique lux). -/
def curve_sorted (l : List CurvePoint) : Prop :=
  l.Pairwise (fun a b => a.lux < b.lux)

instance (l : List CurvePoint) : Decidable (curve_sorted l) := by
  unfold curve_sorted; infer_instance

theorem curve_scan_append (lux : ℚ) :
    ∀ (l₁ : List CurvePoint) (prev : CurvePoint) (rest : List CurvePoint),
      (∀ e ∈ l₁, e.lux < lux) →
      curve_scan prev (l₁ ++ rest) lux = curve_scan (l₁.getLastD prev) rest lux := by
  intro l₁
  induction l₁ with
  | nil => intro prev rest _; rfl
  | cons x xs ih =>
      intro prev rest h
      have hx : x.lux < lux := h x (List.mem_cons_self x xs)
      simp only [List.cons_append, curve_scan, if_neg (not_le.mpr hx), List.getLastD_cons]
      exact ih x rest fun e he => h e (List.mem_cons_of_mem x he)

theorem curve_last_lux_cons (x : CurvePoint) (m : List CurvePoint) (h : m ≠ []) :
    curve_last_lux (x :: m) = curve_last_lux m := by
  cases m with
  | nil => exact absurd rfl h
  | cons y t => rfl

theorem curve_last_lux_append (l : List CurvePoint) (p : CurvePoint) :
    curve_last_lux (l ++ [p]) = p.lux := by
  induction l with
  | nil => rfl
  | cons x xs ih =>
      rw [List.cons_append, curve_last_lux_cons x (xs ++ [p]) (by simp)]
      exact ih

theorem curve_last_brightness_cons (x : CurvePoint) (m : List CurvePoint) (h : m ≠ []) :
    curve_last_brightness (x :: m) = curve_last_brightness m := by
  cases m with
  | nil => exact absurd rfl h
  | cons y t => rfl

theorem curve_last_brightness_append (l : List CurvePoint) (p : CurvePoint) :
    curve_last_brightness (l ++ [p]) = p.brightness := by
  induction l with
  | nil => rfl
  | cons x xs ih =>
      rw [List.cons_append, curve_last_brightness_cons x (xs ++ [p]) (by simp)]
      exact ih

/-- Exact interpolation value at the right endpoint of a segment. -/
theorem interp_formula_right (x1 x2 : ℚ) (y1 y2 : ℤ) (h : x1 < x2) :
    truncQ ((y1 : ℚ) + (x2 - x1) / (x2 - x1) * ((y2 : ℚ) - (y1 : ℚ))) = y2 := by
  have hne : x2 - x1 ≠ 0 := sub_ne_zero_of_ne (ne_of_gt h)
  have h2 : (y1 : ℚ) + (x2 - x1) / (x2 - x1) * ((y2 : ℚ) - (y1 : ℚ)) = ((y2 : ℤ) : ℚ) := by
    rw [div_self hne]; ring
  rw [h2, truncQ_intCast]

/-- Inside a segment the `interpolate` helper computes the truncated
linear-interpolation formula (also at the right endpoint, where the clamp
branch returns the same value the formula gives). -/
theorem interpolate_eq_formula (x x1 x2 : ℚ) (y1 y2 : ℤ)
    (h1 : x1 < x) (h2 : x ≤ x2) :
    interpolate x x1 x2 y1 y2 =
      truncQ ((y1 : ℚ) + (x - x1) / (x2 - x1) * ((y2 : ℚ) - (y1 : ℚ))) := by
  unfold interpolate
  rw [if_neg (not_le.mpr h1)]
  rcases lt_or_eq_of_le h2 with hlt | heq
  · rw [if_neg (not_le.mpr hlt)]
  · subst heq
    rw [if_pos (le_refl x), interp_formula_right x1 x y1 y2 h1]

/-- Unfolding of the calculation for a well-formed call (nonnegative lux,
at least two points). -/
theorem calc_cons (p : CurvePoint) (rest : List CurvePoint) (lux : ℚ)
    (hlux : 0 ≤ lux) (hrest : rest ≠ []) :
    light_sensor_calculate_brightness (p :: rest) lux =
      (if lux ≤ p.lux then p.brightness
       else if curve_last_lux (p :: rest) ≤ lux then curve_last_brightness (p :: rest)
       else
         match curve_scan p rest lux with
         | some b => b
         | none => curve_last_brightness (p :: rest)) := by
  unfold light_sensor_calculate_brightness
  rw [if_neg]
  push_neg
  refine ⟨hlux, ?_⟩
  have : 1 ≤ rest.length := by
    cases rest with
    | nil => exact absurd rfl hrest
    | cons y t => simp
  simp only [List.length_cons]
  omega

/-- Below-the-curve clamp branch. -/
theorem calc_below (p : CurvePoint) (rest : List CurvePoint) (lux : ℚ)
    (hlux : 0 ≤ lux) (hrest : rest ≠ []) (hle : lux ≤ p.lux) :
    light_sensor_calculate_brightness (p :: rest) lux = p.brightness := by
  rw [calc_cons p rest lux hlux hrest, if_pos hle]

/-- Above-the-curve clamp branch. -/
theorem calc_above (l : List CurvePoint) (plast : CurvePoint) (lux : ℚ)
    (hsort : curve_sorted (l ++ [plast])) (hl : l ≠ []) (hlux : 0 ≤ lux)
    (hge : plast.lux ≤ lux) :
    light_sensor_calculate_brightness (l ++ [plast]) lux = plast.brightness := by
  cases l with
  | nil => exact absurd rfl hl
  | cons p l' =>
      have hsort' := hsort
      unfold curve_sorted at hsort'
      rw [List.cons_append, List.pairwise_cons] at hsort'
      have hplast : p.lux < plast.lux := hsort'.1 plast (by simp)
      have hhead : ¬ lux ≤ p.lux := not_le.mpr (lt_of_lt_of_le hplast hge)
      rw [List.cons_append, calc_cons p (l' ++ [plast]) lux hlux (by simp), if_neg hhead,
        ← List.cons_append, curve_last_lux_append, curve_last_brightness_append,
        if_pos hge]

/-- Bracketing-segment branch: the result is the truncated linear
interpolation between the bracketing pair. -/
theorem calc_bracket (l₁ : List CurvePoint) (p q : CurvePoint) (l₂ : List CurvePoint)
    (lux : ℚ) (hsort : curve_sorted (l₁ ++ p :: q :: l₂)) (hlux : 0 ≤ lux)
    (hp : p.lux < lux) (hq : lux ≤ q.lux) :
    light_sensor_calculate_brightness (l₁ ++ p :: q :: l₂) lux =
      truncQ ((p.brightness : ℚ) +
        (lux - p.lux) / (q.lux - p.lux) * ((q.brightness : ℚ) - (p.brightness : ℚ))) := by
  have hpq : p.lux < q.lux := lt_of_lt_of_le hp hq
  rcases List.eq_nil_or_concat l₂ with h2 | ⟨l₂', a, rfl⟩
  · -- q is the last point; the only way the clamp can fire is lux = q.lux
    subst h2
    rcases lt_or_eq_of_le hq with hlt | heq
    · -- strictly inside the final segment: the scan finds it
      cases l₁ with
      | nil =>
          rw [List.nil_append, calc_cons p [q] lux hlux (by simp),
            if_neg (not_le.mpr hp)]
          have hlast : ¬ curve_last_lux (p :: [q]) ≤ lux := by
            have : curve_last_lux (p :: [q]) = q.lux := rfl
            rw [this]; exact not_le.mpr hlt
          rw [if_neg hlast]
          simp only [curve_scan, if_pos hq]
          exact interpolate_eq_formula lux p.lux q.lux p.brightness q.brightness hp hq
      | cons b l₁' =>
          have hsort' := hsort
          unfold curve_sorted at hsort'
          rw [List.cons_append, List.pairwise_cons] at hsort'
          have hbp : b.lux < p.lux := hsort'.1 p (by simp [List.mem_append])
          have hskip : ∀ e ∈ l₁', e.lux < lux := by
            intro e he
            have : e.lux < p.lux := by
              have h3 := hsort'.2
              rw [List.pairwise_append] at h3
              exact h3.2.2 e he p (by simp)
            exact lt_trans this hp
          rw [List.cons_append,
            calc_cons b (l₁' ++ p :: q :: []) lux hlux (by simp),
            if_neg (not_le.mpr (lt_trans hbp hp))]
          have hlast : ¬ curve_last_lux (b :: (l₁' ++ p :: q :: [])) ≤ lux := by
            have h4 : b :: (l₁' ++ p :: q :: []) = (b :: (l₁' ++ [p])) ++ [q] := by
              simp
            rw [h4, curve_last_lux_append]
            exact not_le.mpr hlt
          rw [if_neg hlast,
            curve_scan_append lux l₁' b (p :: q :: []) hskip]
          simp only [curve_scan, if_neg (not_le.mpr hp), if_pos hq]
          exact interpolate_eq_formula lux p.lux q.lux p.brightness q.brightness hp hq
    · -- lux exactly at the last point: clamp branch, same value as formula
      subst heq
      have h4 : l₁ ++ p :: q :: [] = (l₁ ++ [p]) ++ [q] := by simp
      rw [h4, calc_above (l₁ ++ [p]) q q.lux (h4 ▸ hsort) (by simp) hlux (le_refl _)]
      exact (interp_formula_right p.lux q.lux p.brightness q.brightness hpq).symm
  · -- there are points beyond q: the clamp cannot fire
    simp only [List.concat_eq_append] at hsort ⊢
    have h4 : l₁ ++ p :: q :: (l₂' ++ [a]) = (l₁ ++ p :: q :: l₂') ++ [a] := by simp
    have hqa : q.lux < a.lux := by
      have hsort' := hsort
      unfold curve_sorted at hsort'
      rw [h4, List.pairwise_append] at hsort'
      exact hsort'.2.2 q (by simp) a (by simp)
    cases l₁ with
    | nil =>
        rw [List.nil_append, calc_cons p (q :: (l₂' ++ [a])) lux hlux (by simp),
          if_neg (not_le.mpr hp)]
        have hlast : ¬ curve_last_lux (p :: q :: (l₂' ++ [a])) ≤ lux := by
          have h5 : p :: q :: (l₂' ++ [a]) = (p :: q :: l₂') ++ [a] := by simp
          rw [h5, curve_last_lux_append]
          exact not_le.mpr (lt_of_le_of_lt hq hqa)
        rw [if_neg hlast]
        simp only [curve_scan, if_pos hq]
        exact interpolate_eq_formula lux p.lux q.lux p.brightness q.brightness hp hq
    | cons b l₁' =>
        have hsort' := hsort
        unfold curve_sorted at hsort'
        rw [List.cons_append, List.pairwise_cons] at hsort'
        have hbp : b.lux < p.lux := hsort'.1 p (by simp [List.mem_append])
        have hskip : ∀ e ∈ l₁', e.lux < lux := by
          intro e he
          have : e.lux < p.lux := by
            have h3 := hsort'.2
            rw [List.pairwise_append] at h3
            exact h3.2.2 e he p (by simp)
          exact lt_trans this hp
        rw [List.cons_append,
          calc_cons b (l₁' ++ p :: q :: (l₂' ++ [a])) lux hlux (by simp),
          if_neg (not_le.mpr (lt_trans hbp hp))]
        have hlast : ¬ curve_last_lux (b :: (l₁' ++ p :: q :: (l₂' ++ [a]))) ≤ lux := by
          have h5 : b :: (l₁' ++ p :: q :: (l₂' ++ [a])) =
              (b :: (l₁' ++ p :: q :: l₂')) ++ [a] := by simp
          rw [h5, curve_last_lux_append]
          exact not_le.mpr (lt_of_le_of_lt hq hqa)
        rw [if_neg hlast,
          curve_scan_append lux l₁' b (p :: q :: (l₂' ++ [a])) hskip]
        simp only [curve_scan, if_neg (not_le.mpr hp), if_pos hq]
        exact interpolate_eq_formula lux p.lux q.lux p.brightness q.brightness hp hq

/-- C7: for every curve of `≥ 2` points sorted by ascending lux and every
`lux ≥ 0`: `lux ≤` the first point's lux `→` exactly the first point's
brightness; `lux ≥` the last point's lux `→` exactly the last point's
brightness; otherwise the truncated linear interpolation between the
bracketing pair.  The C code computes in `double`; modelled as exact
rational arithmetic followed by the `(int)` truncation. -/
theorem light_sensor_calc_spec (points : List CurvePoint) (lux : ℚ)
    (hsort : curve_sorted points) (hlen : 2 ≤ points.length) (hlux : 0 ≤ lux) :
    (∀ p rest, points = p :: rest → lux ≤ p.lux →
      light_sensor_calculate_brightness points lux = p.brightness) ∧
    (∀ l plast, points = l ++ [plast] → plast.lux ≤ lux →
      light_sensor_calculate_brightness points lux = plast.brightness) ∧
    (∀ l₁ p q l₂, points = l₁ ++ p :: q :: l₂ → p.lux < lux → lux ≤ q.lux →
      light_sensor_calculate_brightness points lux =
        truncQ ((p.brightness : ℚ) +
          (lux - p.lux) / (q.lux - p.lux) *
            ((q.brightness : ℚ) - (p.brightness : ℚ)))) := by
  refine ⟨?_, ?_, ?_⟩
  · intro p rest hsplit hle
    subst hsplit
    have hrest : rest ≠ [] := by
      intro h; rw [h] at hlen; simp at hlen
    exact calc_below p rest lux hlux hrest hle
  · intro l plast hsplit hge
    subst hsplit
    have hl : l ≠ [] := by
      intro h; rw [h] at hlen; simp at hlen
    exact calc_above l plast lux hsort hl hlux hge
  · intro l₁ p q l₂ hsplit hp hq
    subst hsplit
    exact calc_bracket l₁ p q l₂ lux hsort hlux hp hq

/-- C7 witness: for the curve `(0,20),(200,70),(1000,100)` at `lux = 100`
the computed brightness is `20 + (100/200)*(70-20) = 45`. -/
theorem light_sensor_calc_spec_witness :
    light_sensor_calculate_brightness
      [⟨0,20⟩, ⟨200,70⟩, ⟨1000,100⟩] 100 = 45 := by
  have h := (light_sensor_calc_spec [⟨0,20⟩, ⟨200,70⟩, ⟨1000,100⟩] 100
      (by decide) (by decide) (by decide)).2.2
      [] ⟨0,20⟩ ⟨200,70⟩ [⟨1000,100⟩] rfl (by decide) (by decide)
  rw [h]
  norm_num [truncQ]

/-! ## Sensor source with hysteresis (auto_brightness_timer_callback,
light_sensor_dialog.h) -/

/-- The hard-coded dead-zone width of the sensor branch:
`const double LUX_HYSTERESIS = 5.0;`. -/
def LUX_HYSTERESIS : ℚ := 5

/-- The `should_update` decision of the sensor branch: update when no
stable lux is recorded yet (`stable_lux < 0`) or the fresh reading leaves
the `± LUX_HYSTERESIS` band around the stable value. -/
def should_update (stable_lux lux : ℚ) : Bool :=
  if stable_lux < 0 then true
  else if lux < stable_lux - LUX_HYSTERESIS ∨ lux > stable_lux + LUX_HYSTERESIS then true
  else false

/-- The per-monitor sensor-mode evaluation of
`auto_brightness_timer_callback` (the `AUTO_BRIGHTNESS_MODE_LIGHT_SENSOR`
branch, reached with a valid reading `lux ≥ 0`): returns the proposed
target brightness (`-1` = no proposal, in which case
`monitor_set_target_brightness` is not called) together with the monitor's
new `stable_lux`. -/
def sensor_source_evaluate (curve : List CurvePoint) (stable_lux lux : ℚ) : ℤ × ℚ :=
  if should_update stable_lux lux then
    (light_sensor_calculate_brightness curve lux, lux)
  else (-1, stable_lux)

/-- Modelled from the spec: the dead-zone test as §4.4 words it, with the
threshold `h` an explicit parameter, used to compare the engine's
behaviour against the behaviour the spec ascribes to the configured
hysteresis. -/
def spec_dead_zone_update (h stable_lux lux : ℚ) : Bool :=
  if stable_lux < 0 then true
  else if |lux - stable_lux| > h then true
  else false

/-- `config_get_light_sensor_hysteresis` of config.c: the stored
per-monitor value (`none` when unset or unreadable) defaulted to 5 and
clamped into `[0, 100]`. -/
def config_get_light_sensor_hysteresis (stored : Option ℚ) : ℚ :=
  let hysteresis : ℚ :=
    match stored with
    | none => 5
    | some v => v
  let h1 : ℚ := if hysteresis < 0 then 0 else hysteresis
  if h1 > 100 then 100 else h1

/-- C4: SensorSource hysteresis dead zone with the default threshold
`h = 5` lux: if `stable_lux` is `-1` (first evaluation, recorded as any
negative stable value) or the reading differs from `stable_lux` by
strictly more than `h`, the source recomputes brightness via curve
interpolation, stores the new lux as stable, and proposes the recomputed
value; otherwise it proposes nothing (`-1`) and `stable_lux` is unchanged
— in particular two consecutive readings within `h` of each other never
change `stable_lux` nor yield a new target. -/
theorem sensor_source_hysteresis (curve : List CurvePoint) (stable_lux lux : ℚ) :
    ((stable_lux = -1 ∨ |lux - stable_lux| > LUX_HYSTERESIS) →
      sensor_source_evaluate curve stable_lux lux =
        (light_sensor_calculate_brightness curve lux, lux)) ∧
    (0 ≤ stable_lux → |lux - stable_lux| ≤ LUX_HYSTERESIS →
      sensor_source_evaluate curve stable_lux lux = (-1, stable_lux)) := by
  constructor
  · intro h
    have hupd : should_update stable_lux lux = true := by
      unfold should_update
      split_ifs with h1 h3
      · rfl
      · rfl
      · exfalso
        rcases h with hs | habs
        · exact h1 (by rw [hs]; norm_num)
        · push_neg at h3
          have hband : |lux - stable_lux| ≤ LUX_HYSTERESIS :=
            abs_le.mpr ⟨by linarith [h3.1], by linarith [h3.2]⟩
          exact absurd habs (not_lt.mpr hband)
    unfold sensor_source_evaluate
    rw [hupd, if_pos rfl]
  · intro h0 hband
    have hupd : should_update stable_lux lux = false := by
      unfold should_update
      rw [if_neg (not_lt.mpr h0), if_neg]
      rw [abs_le] at hband
      push_neg
      constructor <;> linarith [hband.1, hband.2]
    unfold sensor_source_evaluate
    rw [hupd]
    simp

/-- C4 witness: a first evaluation (stable lux `-1`) proposes the curve
value and records the reading; a reading within the band proposes nothing. -/
theorem sensor_source_hysteresis_witness :
    sensor_source_evaluate [] (-1) 3 = (light_sensor_calculate_brightness [] 3, 3) ∧
    sensor_source_evaluate [] 10 13 = (-1, 10) :=
  ⟨(sensor_source_hysteresis [] (-1) 3).1 (Or.inl rfl),
    (sensor_source_hysteresis [] 10 13).2 (by norm_num)
      (by rw [show (13 : ℚ) - 10 = 3 by norm_num]; norm_num [LUX_HYSTERESIS])⟩

/-- C5 counterexample: with the per-monitor hysteresis configured to 0
(clamped value 0) the spec's dead-zone test at `stable_lux = 10`,
`lux = 13` demands an update (`|13-10| > 0`), but the engine's actual test
— hard-coded at 5 — proposes none: the configured value is not the
threshold the decision engine applies. -/
theorem hysteresis_config_counterexample :
    config_get_light_sensor_hysteresis (some 0) = 0 ∧
    spec_dead_zone_update (config_get_light_sensor_hysteresis (some 0)) 10 13 = true ∧
    should_update 10 13 = false := by
  refine ⟨?_, ?_, ?_⟩
  · norm_num [config_get_light_sensor_hysteresis]
  · rw [show config_get_light_sensor_hysteresis (some 0) = 0 by
      norm_num [config_get_light_sensor_hysteresis]]
    unfold spec_dead_zone_update
    rw [if_neg (by norm_num), if_pos]
    rw [show (13 : ℚ) - 10 = 3 by norm_num]
    norm_num
  · unfold should_update LUX_HYSTERESIS
    rw [if_neg (by norm_num), if_neg (by norm_num)]

/-- C5 amended: the dead-zone threshold actually applied by the sensor
branch is the hard-coded constant `LUX_HYSTERESIS = 5` for every monitor;
`config_get_light_sensor_hysteresis` (default 5, clamped to `[0,100]`)
exists in the configuration layer but is never consulted by the decision
engine, so changing the configured value does not change the applied
threshold. -/
theorem hysteresis_threshold_is_constant (stored : Option ℚ) (stable_lux lux : ℚ) :
    should_update stable_lux lux =
      spec_dead_zone_update LUX_HYSTERESIS stable_lux lux ∧
    LUX_HYSTERESIS = 5 ∧
    config_get_light_sensor_hysteresis none = 5 ∧
    0 ≤ config_get_light_sensor_hysteresis stored ∧
    config_get_light_sensor_hysteresis stored ≤ 100 := by
  refine ⟨?_, rfl, by norm_num [config_get_light_sensor_hysteresis], ?_, ?_⟩
  · unfold should_update spec_dead_zone_update
    rcases lt_or_le stable_lux 0 with h | h
    · rw [if_pos h, if_pos h]
    · rw [if_neg (not_lt.mpr h), if_neg (not_lt.mpr h)]
      by_cases hband : lux < stable_lux - LUX_HYSTERESIS ∨ lux > stable_lux + LUX_HYSTERESIS
      · rw [if_pos hband, if_pos]
        rcases hband with h4 | h4
        · calc LUX_HYSTERESIS < -(lux - stable_lux) := by linarith
            _ ≤ |lux - stable_lux| := neg_le_abs _
        · calc LUX_HYSTERESIS < lux - stable_lux := by linarith
            _ ≤ |lux - stable_lux| := le_abs_self _
      · rw [if_neg hband, if_neg]
        push_neg at hband
        exact not_lt.mpr (abs_le.mpr ⟨by linarith [hband.1], by linarith [hband.2]⟩)
  · unfold config_get_light_sensor_hysteresis
    cases stored with
    | none => norm_num
    | some v => dsimp only; split_ifs <;> linarith
  · unfold config_get_light_sensor_hysteresis
    cases stored with
    | none => norm_num
    | some v => dsimp only; split_ifs <;> linarith

/-! ## Follow-main-display source (laptop_backlight.c and
auto_brightness_timer_callback) -/

/-- The percentage computation of `laptop_backlight_read_brightness`:
`(current_brightness * 100) / max_brightness` in C `int` arithmetic
(division truncating toward zero). -/
def laptop_backlight_percentage (raw maxb : ℤ) : ℤ := (raw * 100).tdiv maxb

/-- The `AUTO_BRIGHTNESS_MODE_LAPTOP_DISPLAY` branch of
`auto_brightness_timer_callback`: add the per-monitor offset to the
backlight percentage and clamp to `[0, 100]` with two successive tests. -/
def follow_source_target (p offset : ℤ) : ℤ :=
  let t := p + offset
  let t1 := if t < 0 then 0 else t
  if t1 > 100 then 100 else t1

/-- Helper: on nonnegative operands C's truncating division agrees with
Euclidean division. -/
theorem tdiv_nonneg_eq_ediv (a b : ℤ) (ha : 0 ≤ a) (hb : 0 ≤ b) :
    a.tdiv b = a / b := by
  obtain ⟨m, rfl⟩ := Int.eq_ofNat_of_zero_le ha
  obtain ⟨n, rfl⟩ := Int.eq_ofNat_of_zero_le hb
  rfl

/-- C6 counterexample: a backlight reading `raw = 2`, `max = 3` yields the
truncated percentage 66, while round-to-nearest of `2/3*100` is 67: the
percentage is truncated, not rounded. -/
theorem follow_source_round_counterexample :
    laptop_backlight_percentage 2 3 = 66 ∧
    round ((2 : ℚ) / 3 * 100) = 67 := by
  constructor
  · decide
  · rw [round_eq]
    norm_num

/-- C6 amended: for every companion-backlight reading with raw value
`raw ≥ 0` and maximum `max > 0`, the backlight percentage is
`p = ⌊raw * 100 / max⌋` (truncated integer division, not rounded to
nearest), and the proposed target for a monitor with brightness offset
`offset` is `clamp(p + offset, 0, 100)`. -/
theorem follow_source_spec (raw maxb p offset : ℤ) (h0 : 0 ≤ raw) (h1 : 0 < maxb) :
    laptop_backlight_percentage raw maxb = ⌊((raw * 100 : ℤ) : ℚ) / ((maxb : ℤ) : ℚ)⌋ ∧
    follow_source_target p offset = min 100 (max 0 (p + offset)) := by
  constructor
  · obtain ⟨n, rfl⟩ := Int.eq_ofNat_of_zero_le (le_of_lt h1)
    rw [laptop_backlight_percentage,
      tdiv_nonneg_eq_ediv (raw * 100) n (by positivity) (Int.ofNat_nonneg n)]
    exact_mod_cast (Rat.floor_intCast_div_natCast (raw * 100) n).symm
  · unfold follow_source_target
    dsimp only
    split_ifs <;> omega

/-- C6 witness: `raw = 2, max = 3, offset = 30` applied to the amended
formulas. -/
theorem follow_source_spec_witness :
    laptop_backlight_percentage 2 3 = ⌊((2 * 100 : ℤ) : ℚ) / ((3 : ℤ) : ℚ)⌋ ∧
    follow_source_target 66 30 = min 100 (max 0 (66 + 30)) :=
  follow_source_spec 2 3 66 30 (by decide) (by decide)

/-! ## Hardware transport and transition engine (brightness_control.c and
brightness_transition_timer_callback of light_sensor_dialog.h) -/

/-- The mutable control state of one `Monitor` record that the write path
and the transition engine touch: `available`, `current_brightness`
(last value actually sent, `-1` = unknown) and `target_brightness`
(`-1` = no pending transition). -/
structure Monitor where
  available : Bool
  current_brightness : ℤ
  target_brightness : ℤ
deriving DecidableEq

/-- `monitor_set_brightness` of brightness_control.c.  `hwOk` stands for
the exit status of the `ddccontrol -r 0x10 -w <value>` subprocess.  The
result is the updated monitor state, the `gboolean` return value, and
whether the subprocess was invoked at all (the skip branch returns success
without touching the bus). -/
def monitor_set_brightness (m : Monitor) (brightness : ℤ) (hwOk : Bool) :
    Monitor × Bool × Bool :=
  if m.available = false then (m, false, false)
  else if brightness < 0 ∨ brightness > 100 then (m, false, false)
  else if m.current_brightness = brightness then (m, true, false)
  else if hwOk then ({ m with current_brightness := brightness }, true, true)
  else ({ m with available := false }, false, true)

/-- `monitor_set_brightness_with_retry`, restricted to the write itself:
it performs `monitor_set_brightness` and returns that state change and
success flag.  When the write fails it additionally fires the refresh
callback (`auto_refresh_monitors_on_failure`), whose registry side effect
— `load_monitors` frees and rebuilds the whole monitor list — is not
visible in the record-level state this function returns; the instrumented
variant `monitor_set_brightness_with_refresh` below reports when that
side effect occurs.  The transition-engine and transport theorems that
use this plain variant exercise it only under successful writes, where
the callback never fires and the returned record is the registry's. -/
def monitor_set_brightness_with_retry (m : Monitor) (brightness : ℤ) (hwOk : Bool) :
    Monitor × Bool :=
  ((monitor_set_brightness m brightness hwOk).1,
    (monitor_set_brightness m brightness hwOk).2.1)

/-- `monitor_new` of brightness_control.c: every record rebuilt by a
refresh starts available with unknown current brightness and no pending
transition. -/
def monitor_new : Monitor :=
  { available := true, current_brightness := -1, target_brightness := -1 }

/-- `monitor_set_brightness_with_retry`, instrumented with its refresh
side effect.  Components: the state of the record the caller's `monitor`
pointer designates, the success flag, and whether the refresh callback
fired (`!success && refresh_callback && monitor->available == FALSE`
with the callback always supplied by the transition engine).  When the
third component is `true`, `auto_refresh_monitors_on_failure` has run
`load_monitors` synchronously: the registry is freed and rebuilt, every
record now in it starts as `monitor_new`, and the record returned here is
detached from the registry (the caller still holds and writes through its
pointer, as the C code does). -/
def monitor_set_brightness_with_refresh (m : Monitor) (brightness : ℤ) (hwOk : Bool) :
    Monitor × Bool × Bool :=
  let r := monitor_set_brightness m brightness hwOk
  (r.1, r.2.1, !r.2.1 && !r.1.available)

/-- The per-monitor body of `brightness_transition_timer_callback`: skip
when no transition is pending or the target is reached; otherwise step one
unit toward the target (jumping when the current brightness is unknown),
write through the transport ignoring its result, and clear the target when
the attempted value equals it. -/
def brightness_transition_tick (m : Monitor) (hwOk : Bool) : Monitor :=
  let current := m.current_brightness
  let target := m.target_brightness
  if target < 0 ∨ current = target then m
  else
    let next : ℤ :=
      if current < 0 then target
      else if current < target then current + 1
      else current - 1
    let m1 := (monitor_set_brightness_with_retry m next hwOk).1
    if next = target then { m1 with target_brightness := -1 } else m1

/-- The per-monitor body of `brightness_transition_timer_callback`,
instrumented with the refresh side effect of a failed write: the same
step as `brightness_transition_tick` (see `tick_tracked_agrees`), plus a
flag that is `true` exactly when the failed write made
`auto_refresh_monitors_on_failure` free and rebuild the monitor registry
mid-tick.  The returned record is then the detached record the loop's
`monitor` pointer still designates — the code clears its target through
that pointer — while every record in the rebuilt registry is
`monitor_new`. -/
def brightness_transition_tick_tracked (m : Monitor) (hwOk : Bool) : Monitor × Bool :=
  let current := m.current_brightness
  let target := m.target_brightness
  if target < 0 ∨ current = target then (m, false)
  else
    let next : ℤ :=
      if current < 0 then target
      else if current < target then current + 1
      else current - 1
    let r := monitor_set_brightness_with_refresh m next hwOk
    (if next = target then { r.1 with target_brightness := -1 } else r.1, r.2.2)

/-- The instrumented tick performs exactly the same record-level step as
`brightness_transition_tick`. -/
theorem tick_tracked_agrees (m : Monitor) (hwOk : Bool) :
    (brightness_transition_tick_tracked m hwOk).1 = brightness_transition_tick m hwOk := by
  simp only [brightness_transition_tick_tracked, brightness_transition_tick,
    monitor_set_brightness_with_refresh, monitor_set_brightness_with_retry]
  split_ifs <;> rfl

/-- `n` consecutive transition-timer ticks with every hardware write
succeeding. -/
def transition_run (m : Monitor) : ℕ → Monitor
  | 0 => m
  | n + 1 => brightness_transition_tick (transition_run m n) true

/-- A single upward step of the engine under a successful write. -/
theorem tick_step_up (c t : ℤ) (h0 : 0 ≤ c) (hct : c < t) (ht : t ≤ 100) :
    brightness_transition_tick ⟨true, c, t⟩ true =
      ⟨true, c + 1, if c + 1 = t then -1 else t⟩ := by
  simp only [brightness_transition_tick, monitor_set_brightness_with_retry,
    monitor_set_brightness]
  split_ifs <;> first | rfl | omega | simp_all

/-- A single downward step of the engine under a successful write. -/
theorem tick_step_down (c t : ℤ) (h0 : 0 ≤ t) (hct : t < c) (hc : c ≤ 100) :
    brightness_transition_tick ⟨true, c, t⟩ true =
      ⟨true, c - 1, if c - 1 = t then -1 else t⟩ := by
  simp only [brightness_transition_tick, monitor_set_brightness_with_retry,
    monitor_set_brightness]
  split_ifs <;> first | rfl | omega | simp_all

/-- Progress lemma for an increasing transition: after `k` successful
ticks with `k` short of the distance, the brightness has advanced by
exactly `k` and the target is untouched. -/
theorem transition_run_up (c t : ℤ) (h0 : 0 ≤ c) (ht : t ≤ 100) :
    ∀ k : ℕ, c + k < t →
      transition_run ⟨true, c, t⟩ k = ⟨true, c + k, t⟩ := by
  intro k
  induction k with
  | zero => intro _; simp [transition_run]
  | succ n ih =>
      intro h
      have hn : c + n < t := by push_cast at h ⊢; omega
      rw [transition_run, ih hn,
        tick_step_up (c + n) t (by omega) hn ht,
        if_neg (by push_cast at h ⊢; omega)]
      congr 1
      push_cast
      ring

/-- Progress lemma for a decreasing transition. -/
theorem transition_run_down (c t : ℤ) (h0 : 0 ≤ t) (hc : c ≤ 100) :
    ∀ k : ℕ, t < c - k →
      transition_run ⟨true, c, t⟩ k = ⟨true, c - k, t⟩ := by
  intro k
  induction k with
  | zero => intro _; simp [transition_run]
  | succ n ih =>
      intro h
      have hn : t < c - n := by push_cast at h ⊢; omega
      rw [transition_run, ih hn,
        tick_step_down (c - n) t h0 hn (by omega)]
      rw [if_neg (by push_cast at h ⊢; omega)]
      congr 1
      push_cast
      ring

/-- Reaching lemma: an increasing transition arrives exactly after
`t - c` ticks with the target cleared. -/
theorem transition_run_up_reach (c t : ℤ) (h0 : 0 ≤ c) (hct : c < t) (ht : t ≤ 100) :
    transition_run ⟨true, c, t⟩ (t - c).natAbs = ⟨true, t, -1⟩ := by
  obtain ⟨m, hm⟩ : ∃ m, (t - c).natAbs = m + 1 := ⟨(t - c).natAbs - 1, by omega⟩
  have hmz : (m : ℤ) = t - c - 1 := by omega
  rw [hm, transition_run, transition_run_up c t h0 ht m (by omega),
    tick_step_up (c + m) t (by omega) (by omega) ht, if_pos (by omega)]
  congr 1
  omega

/-- Reaching lemma: a decreasing transition arrives exactly after
`c - t` ticks with the target cleared. -/
theorem transition_run_down_reach (c t : ℤ) (h0 : 0 ≤ t) (hct : t < c) (hc : c ≤ 100) :
    transition_run ⟨true, c, t⟩ (c - t).natAbs = ⟨true, t, -1⟩ := by
  obtain ⟨m, hm⟩ : ∃ m, (c - t).natAbs = m + 1 := ⟨(c - t).natAbs - 1, by omega⟩
  have hmz : (m : ℤ) = c - t - 1 := by omega
  rw [hm, transition_run, transition_run_down c t h0 hc m (by omega),
    tick_step_down (c - m) t h0 (by omega) (by omega), if_pos (by omega)]
  congr 1
  omega

/-- C1: TransitionEngine convergence.  For a monitor with
`current_brightness = c` and `target_brightness = t`, both in `[0,100]`
and `c ≠ t`, under successful hardware writes: after each of the first
`|c - t| - 1` ticks the brightness has moved by exactly one unit toward
`t` with the target intact; after exactly `|c - t|` ticks the brightness
is `t` and the target is cleared to `-1`; no intermediate value leaves
`[min c t, max c t]`; and a monitor with unknown brightness (`-1`) jumps
directly to `t` in one tick. -/
theorem transition_engine_convergence (c t : ℤ)
    (hc0 : 0 ≤ c) (hc1 : c ≤ 100) (ht0 : 0 ≤ t) (ht1 : t ≤ 100) (hne : c ≠ t) :
    (∀ k : ℕ, k < (t - c).natAbs →
      transition_run ⟨true, c, t⟩ k =
        ⟨true, c + k * (if c < t then 1 else -1), t⟩) ∧
    transition_run ⟨true, c, t⟩ ((t - c).natAbs) = ⟨true, t, -1⟩ ∧
    (∀ k : ℕ, k ≤ (t - c).natAbs →
      min c t ≤ (transition_run ⟨true, c, t⟩ k).current_brightness ∧
      (transition_run ⟨true, c, t⟩ k).current_brightness ≤ max c t) ∧
    brightness_transition_tick ⟨true, -1, t⟩ true = ⟨true, t, -1⟩ := by
  have hform : ∀ k : ℕ, k < (t - c).natAbs →
      transition_run ⟨true, c, t⟩ k =
        ⟨true, c + k * (if c < t then 1 else -1), t⟩ := by
    intro k hk
    rcases lt_or_gt_of_ne hne with hlt | hgt
    · rw [if_pos hlt, transition_run_up c t hc0 ht1 k (by omega)]
      congr 1
      ring
    · rw [if_neg (by omega), transition_run_down c t ht0 hc1 k (by omega)]
      congr 1
      ring
  have hreach : transition_run ⟨true, c, t⟩ ((t - c).natAbs) = ⟨true, t, -1⟩ := by
    rcases lt_or_gt_of_ne hne with hlt | hgt
    · exact transition_run_up_reach c t hc0 hlt ht1
    · rw [show (t - c).natAbs = (c - t).natAbs by omega]
      exact transition_run_down_reach c t ht0 hgt hc1
  refine ⟨hform, hreach, ?_, ?_⟩
  · intro k hk
    rcases eq_or_lt_of_le hk with heq | hklt
    · rw [heq, hreach]
      constructor <;> · simp; try omega
    · rw [hform k hklt]
      rcases lt_or_gt_of_ne hne with hlt | hgt
      · rw [if_pos hlt]
        constructor <;> · simp; try omega
      · rw [if_neg (by omega)]
        constructor <;> · simp; try omega
  · simp only [brightness_transition_tick, monitor_set_brightness_with_retry,
      monitor_set_brightness]
    split_ifs <;> first | rfl | omega | simp_all

/-- C1 witness: a monitor at brightness 30 given target 45 reaches 45
after exactly 15 successful ticks with the target then cleared (the §8
worked example). -/
theorem transition_engine_convergence_witness :
    (∀ k : ℕ, k < ((45 : ℤ) - 30).natAbs →
      transition_run ⟨true, 30, 45⟩ k =
        ⟨true, 30 + k * (if (30 : ℤ) < 45 then 1 else -1), 45⟩) ∧
    transition_run ⟨true, 30, 45⟩ (((45 : ℤ) - 30).natAbs) = ⟨true, 45, -1⟩ ∧
    (∀ k : ℕ, k ≤ ((45 : ℤ) - 30).natAbs →
      min (30 : ℤ) 45 ≤ (transition_run ⟨true, 30, 45⟩ k).current_brightness ∧
      (transition_run ⟨true, 30, 45⟩ k).current_brightness ≤ max (30 : ℤ) 45) ∧
    brightness_transition_tick ⟨true, -1, 45⟩ true = ⟨true, 45, -1⟩ :=
  transition_engine_convergence 30 45 (by decide) (by decide) (by decide) (by decide)
    (by decide)

/-- C9: HardwareTransport write.  For every available monitor and value in
`[0,100]`: when the value equals the tracked `current_brightness` the
subprocess is not invoked and the call succeeds with the state unchanged;
otherwise the subprocess is invoked, and `current_brightness` is updated
to the new value exactly when the invocation succeeds — on failure the
state keeps the old `current_brightness` and the monitor is marked
unavailable. -/
theorem monitor_set_brightness_spec (m : Monitor) (b : ℤ) (hwOk : Bool)
    (hav : m.available = true) (hb0 : 0 ≤ b) (hb1 : b ≤ 100) :
    (b = m.current_brightness →
      monitor_set_brightness m b hwOk = (m, true, false)) ∧
    (b ≠ m.current_brightness →
      (monitor_set_brightness m b hwOk).2.2 = true ∧
      (hwOk = true →
        monitor_set_brightness m b hwOk =
          ({ m with current_brightness := b }, true, true)) ∧
      (hwOk = false →
        monitor_set_brightness m b hwOk =
          ({ m with available := false }, false, true))) := by
  constructor
  · intro hb
    simp only [monitor_set_brightness]
    rw [if_neg (by rw [hav]; simp), if_neg (by omega), if_pos hb.symm]
  · intro hb
    refine ⟨?_, ?_, ?_⟩
    · simp only [monitor_set_brightness]
      rw [if_neg (by rw [hav]; simp), if_neg (by omega),
        if_neg (fun h => hb h.symm)]
      split_ifs <;> rfl
    · intro hok
      subst hok
      simp only [monitor_set_brightness]
      rw [if_neg (by rw [hav]; simp), if_neg (by omega),
        if_neg (fun h => hb h.symm)]
      simp
    · intro hfail
      subst hfail
      simp only [monitor_set_brightness]
      rw [if_neg (by rw [hav]; simp), if_neg (by omega),
        if_neg (fun h => hb h.symm)]
      simp

/-- C9 witness: writing 31 to an available monitor tracking 30 invokes the
subprocess; with a failing subprocess the state keeps brightness 30 and
the monitor is demoted. -/
theorem monitor_set_brightness_spec_witness :
    monitor_set_brightness ⟨true, 30, -1⟩ 31 false =
      (⟨false, 30, -1⟩, false, true) :=
  ((monitor_set_brightness_spec ⟨true, 30, -1⟩ 31 false rfl (by decide)
    (by decide)).2 (by decide)).2.2 rfl

/-- C10: the transition tick ignores the success flag of the hardware
write.  In every case where the attempted stepped value equals the target
— an upward final step (`c = t - 1`), a downward final step
(`c = t + 1`), or the jump from unknown brightness (`c = -1`) — a failed
write still ends the transition: the record the tick holds a pointer to
is left unavailable with `current_brightness` still `c` (never the
requested `t`) and `target_brightness` cleared to `-1`, and the failure
has triggered `auto_refresh_monitors_on_failure`, which freed and rebuilt
the registry (tracked flag `true`); every rebuilt registry record is
`monitor_new`, carrying no pending transition (`target_brightness = -1`)
and unknown brightness (`-1 ≠ t`) — so the transition is silently
abandoned, not retried, under either view of the monitor. -/
theorem transition_tick_write_failure_clears_target (c t : ℤ)
    (ht0 : 0 ≤ t) (ht1 : t ≤ 100)
    (hshape : c = t - 1 ∨ c = t + 1 ∨ c = -1) :
    brightness_transition_tick_tracked ⟨true, c, t⟩ false = (⟨false, c, -1⟩, true) ∧
    c ≠ t ∧
    monitor_new.target_brightness = -1 ∧
    monitor_new.current_brightness = -1 ∧
    monitor_new.current_brightness ≠ t := by
  have hne : c ≠ t := by rcases hshape with h | h | h <;> omega
  refine ⟨?_, hne, rfl, rfl, by simp only [monitor_new]; omega⟩
  have hset : monitor_set_brightness ⟨true, c, t⟩ t false = (⟨false, c, t⟩, false, true) := by
    simp only [monitor_set_brightness]
    rw [if_neg (by simp), if_neg (by omega), if_neg hne, if_neg (by simp)]
  have hnext : (if c < 0 then t else if c < t then c + 1 else c - 1) = t := by
    rcases hshape with h | h | h <;> subst h <;> split_ifs <;> omega
  simp only [brightness_transition_tick_tracked, monitor_set_brightness_with_refresh]
  rw [if_neg (by push_neg; exact ⟨by omega, hne⟩)]
  rw [hnext, hset]
  simp

/-- C10 witness: a monitor at 52 stepping down to target 51 whose write
fails ends detached and unavailable at 52 with its target cleared, the
registry rebuilt from `monitor_new` records with no pending transition. -/
theorem transition_tick_write_failure_witness :
    brightness_transition_tick_tracked ⟨true, 52, 51⟩ false = (⟨false, 52, -1⟩, true) ∧
    (52 : ℤ) ≠ 51 ∧
    monitor_new.target_brightness = -1 ∧
    monitor_new.current_brightness = -1 ∧
    monitor_new.current_brightness ≠ 51 :=
  transition_tick_write_failure_clears_target 52 51 (by decide) (by decide)
    (Or.inr (Or.inl (by decide)))

/-! ## Detection controller backoff (load_monitors /
load_monitors_with_retry of light_sensor_dialog.h) -/

/-- The fields of the application state that drive the retry machinery:
`monitors_found`, `monitor_retry_attempt` and the pending one-shot timer,
abstracted as the delay in seconds it was armed with (`none` = no timer). -/
structure RetryState where
  monitors_found : Bool
  monitor_retry_attempt : ℤ
  monitor_retry_timer : Option ℕ
deriving DecidableEq

/-- `load_monitors` in the case where `monitor_detect_all` yields zero
monitors: marks nothing found, and only when this is the initial load
(`monitor_retry_attempt == 0`) arms a 30-second retry timer with
attempt 1. -/
def load_monitors_zero (s : RetryState) : RetryState :=
  if s.monitor_retry_attempt = 0 then
    { monitors_found := false, monitor_retry_attempt := 1,
      monitor_retry_timer := some 30 }
  else { s with monitors_found := false }

/-- `load_monitors_with_retry` in the case where the re-probe again yields
zero monitors: the fired timer's handle is cleared on entry, then by saved
attempt number: attempt 1 `→` attempt 2 with a 60-second timer, attempt 2
`→` attempt 3 with a 90-second timer, otherwise stop retrying (attempt
reset to 0, no timer, nothing found). -/
def load_monitors_with_retry_zero (s : RetryState) : RetryState :=
  let s0 : RetryState := { s with monitor_retry_timer := none }
  if s0.monitor_retry_attempt = 1 then
    { s0 with monitor_retry_attempt := 2, monitor_retry_timer := some 60 }
  else if s0.monitor_retry_attempt = 2 then
    { s0 with monitor_retry_attempt := 3, monitor_retry_timer := some 90 }
  else
    { monitors_found := false, monitor_retry_attempt := 0,
      monitor_retry_timer := none }

/-- Absolute firing times of the retry timers when every scheduled
re-probe keeps finding zero monitors: starting at wall-clock `now`, each
armed timer fires after its delay and the failing callback re-arms (or
not) per the state machine. -/
def run_retries : ℕ → ℕ → RetryState → List ℕ
  | 0, _, _ => []
  | fuel + 1, now, s =>
      match s.monitor_retry_timer with
      | none => []
      | some d =>
          (now + d) :: run_retries fuel (now + d) (load_monitors_with_retry_zero s)

/-- C8: DetectionController backoff.  If the startup probe at time `t0`
finds zero monitors, re-probes fire at `t0+30`, `t0+90` and `t0+180`
seconds (delays 30, 60, 90 between attempts), and after the third
scheduled re-probe also finds zero monitors no further timer is armed
(attempt counter back to 0, no monitors found) — surplus fuel produces no
further firings. -/
theorem detection_backoff (t0 : ℕ) :
    run_retries 5 t0 (load_monitors_zero ⟨false, 0, none⟩) =
      [t0 + 30, t0 + 90, t0 + 180] ∧
    load_monitors_with_retry_zero (load_monitors_with_retry_zero
        (load_monitors_with_retry_zero (load_monitors_zero ⟨false, 0, none⟩))) =
      ⟨false, 0, none⟩ := by
  constructor
  · simp only [load_monitors_zero, load_monitors_with_retry_zero, run_retries]
    norm_num
  · decide

end DdcBrightness
